import Mathlib

/-!
# trakt-media-list-filter

A shallow embedding of `trakt-media-list-filter.go` and the properties of its
credential store (`configManager`), token lifecycle (`getAccessToken`), role
filter (`filterByRole`) and batched list publishing (`addMediaToList`).

Conventions of the embedding.

* A Go `map[string]T` is an association list with at most one binding per key
  (`GoMap`); `get` is the map index expression, `set` the map assignment.
* A value stored in an `interface{}` keeps its dynamic type (`Value`), because
  the source decides by type assertion (`.(float64)`, `.(string)`).
* A stored JSON document (`Json`) is kept apart from what `encoding/json`
  decodes it to: a number literal becomes the nearest float64 (`decodeJson`).
* `time.Now().Unix()` is an explicit argument of every function that reads the
  clock.
* Network and browser interaction is supplied by a `World` and recorded in a
  trace of `Effect`s.
-/

namespace TraktFilter

/-! ## Go maps and dynamic values -/

/-- A Go `map[string]β`: an association list, looked up by key. -/
abbrev GoMap (β : Type) := List (String × β)

/-- The index expression `m[k]`: the binding of `k`, when there is one. -/
def GoMap.get {β : Type} (m : GoMap β) (k : String) : Option β :=
  List.lookup k m

/-- The assignment `m[k] = v`: the binding of `k` is replaced. -/
def GoMap.set {β : Type} (m : GoMap β) (k : String) (v : β) : GoMap β :=
  (k, v) :: m.filter (fun p => p.1 != k)

/-! ## float64 arithmetic on integer-valued doubles -/

/-- Search for the spacing of doubles around the magnitude `a`: the least power
of two `u` with `a < 2^53 * u`, tried for the exponents a finite double has. -/
def f64UlpAux : Nat → Nat → Nat → Nat
  | 0, _, u => u
  | n + 1, a, u => if a < 2 ^ 53 * u then u else f64UlpAux n a (2 * u)

/-- Spacing of the doubles around the magnitude `a` (1 below `2^53`). -/
def f64Ulp (a : Nat) : Nat := f64UlpAux 1024 a 1

/-- The integer nearest to `z` with a 53-bit significand, ties to the even
significand: the rounding that decoding a number literal and every float64
operation apply to the exact result (a result of magnitude `2^1024` or more
stands for an overflow). -/
def f64Round (z : Int) : Int :=
  let a := z.natAbs
  let u := f64Ulp a
  let q := a / u
  let r := a % u
  let m := if u < 2 * r ∨ (2 * r = u ∧ q % 2 = 1) then q + 1 else q
  Int.sign z * ((m * u : Nat) : Int)

/-- The integer `v` is the value of a finite float64: rounding leaves it alone
and it is below the overflow threshold `2^1024` (no bit at position 1024 or
above). -/
def isF64 (v : Int) : Bool := f64Round v == v && decide (v.natAbs >>> 1024 = 0)

/-- A finite float64 that holds an integer: the integer, and the evidence that
a float64 can hold it. The fields of the data model are integer seconds;
doubles with a fractional part are not represented. -/
structure F64 where
  toInt : Int
  ok : isF64 toInt = true
  deriving DecidableEq

/-- The float64 sum `x + y` of two doubles holding the integers `x` and `y`. -/
def f64Add (x y : Int) : Int := f64Round (x + y)

/-- The conversion `int64(f)` of a double holding the integer `f` (or of an
overflowed sum). Inside the int64 range it is exact; outside, Go leaves the
result to the implementation, and the value taken here is the one amd64
produces (the minimum int64). -/
def int64OfFloat (f : Int) : Int :=
  if -(2 : Int) ^ 63 ≤ f ∧ f < (2 : Int) ^ 63 then f else -(2 : Int) ^ 63

/-- The dynamic value held by an `interface{}` in a token record.
`encoding/json` decodes every JSON number to `float64`, so a number in a loaded
record is a double (`F64`); `int64` is the dynamic type of `time.Now().Unix()`.
`composite` stands for arrays and nested objects. -/
inductive Value where
  | null
  | bool (b : Bool)
  | float64 (d : F64)
  | str (s : String)
  | int64 (v : Int)
  | composite
  deriving DecidableEq

/-- A member value of a stored JSON object, as written in the file: `number n`
is the integer literal `n`. -/
inductive Json where
  | null
  | bool (b : Bool)
  | number (n : Int)
  | str (s : String)
  | composite
  deriving DecidableEq

/-- What `json.Unmarshal` into an `interface{}` makes of a member value: a number
literal becomes the nearest float64; a literal too large for a float64 is a
decoding error that leaves nil in its place. -/
def decodeJson : Json → Value
  | .null => .null
  | .bool b => .bool b
  | .number n => if h : isF64 (f64Round n) = true then .float64 ⟨f64Round n, h⟩ else .null
  | .str s => .str s
  | .composite => .composite

/-- The map `json.Unmarshal` builds from a stored JSON object. -/
def decodeObject (doc : GoMap Json) : GoMap Value :=
  doc.map (fun p => (p.1, decodeJson p.2))

/-- What `json.MarshalIndent` writes for a value: a float64 holding an integer
and an int64 are both written as that integer. -/
def encodeJson : Value → Json
  | .null => .null
  | .bool b => .bool b
  | .float64 d => .number d.toInt
  | .str s => .str s
  | .int64 v => .number v
  | .composite => .composite

/-! ## Credential store (`configManager`) -/

/-- The source's `configManager`: the static configuration and the token record. -/
structure configManager where
  config : GoMap String
  tokens : GoMap Value
  deriving DecidableEq

/-- What `loadJSON` finds at a path. A JSON object is given as the map from
member name to value (of a repeated name the value `encoding/json` keeps). -/
inductive Storage where
  | missing                          -- `os.Stat` reports that the file does not exist
  | unreadable                       -- `os.ReadFile` fails
  | malformed                        -- not JSON, or the literal `null`: `data` stays nil
  | document (doc : GoMap Json)      -- a JSON object
  | nonObject                        -- valid JSON that is not an object (array, string, ...)
  deriving DecidableEq

/-- What `loadJSON` returns in its `interface{}`: a `map[string]interface{}`, or
a decoded value of another dynamic type. -/
inductive Loaded where
  | object (m : GoMap Value)
  | other
  deriving DecidableEq

/-- The source's `loadJSON`: every failure yields the empty map, a JSON object
its decoded map, and any other document is returned as decoded. -/
def loadJSON : Storage → Loaded
  | .missing => .object []
  | .unreadable => .object []
  | .malformed => .object []
  | .document doc => .object (decodeObject doc)
  | .nonObject => .other

/-- The assertion `.(map[string]interface{})` that `newConfigManager` applies to
the loaded token file: `none` is the run-time panic. -/
def assertTokens : Loaded → Option (GoMap Value)
  | .object m => some m
  | .other => none

/-- The source's `getConfig`: `cm.config[key]`, the zero value when absent. -/
def getConfig (cm : configManager) (key : String) : String :=
  (cm.config.get key).getD ""

/-- The source's `getToken`: the stored value when it is a string, else `""`. -/
def getToken (cm : configManager) (key : String) : String :=
  match cm.tokens.get key with
  | some (.str v) => v
  | _ => ""

/-- The comma-ok type assertion `x.(float64)` on a map index expression:
the value and `true` for a float64, the zero value and `false` otherwise. -/
def assertFloat64 : Option Value → Int × Bool
  | some (.float64 d) => (d.toInt, true)
  | _ => (0, false)

/-- The source's `saveTokens`, run when the clock reads `now`: stamps
`created_at` with the int64 `time.Now().Unix()`, hands the document to the
token file (second component) and makes it the in-memory record. -/
def saveTokens (cm : configManager) (data : GoMap Value) (now : Int) :
    configManager × GoMap Value :=
  let data := data.set "created_at" (.int64 now)
  ({ cm with tokens := data }, data)

/-- The source's `refreshNeeded`, evaluated when the clock reads `now`. -/
def refreshNeeded (cm : configManager) (now : Int) : Bool :=
  let (exp, ok1) := assertFloat64 (cm.tokens.get "expires_in")
  let (cat, ok2) := assertFloat64 (cm.tokens.get "created_at")
  !(ok1 && ok2 && decide (now < int64OfFloat (f64Add cat exp)))

/-- The stored JSON object that `saveTokens` writes for the document `written`. -/
def tokenFileOf (written : GoMap Value) : GoMap Json :=
  written.map (fun p => (p.1, encodeJson p.2))

/-- The token record a later process loads from the file `saveTokens` wrote:
every number, the int64 stamp included, decodes to float64. -/
def reload (written : GoMap Value) : GoMap Value :=
  decodeObject (tokenFileOf written)

/-! ## Token lifecycle (`getAccessToken`) -/

/-- What resty reports for one request to the token endpoint. -/
inductive Response where
  | transportError                   -- `err != nil`: the caller ends in `log.Fatalf`
  | noResult                         -- no decodable success body: `res` stays a nil map
  | result (res : GoMap Value)       -- the decoded JSON object
  deriving DecidableEq

/-- The surroundings of one invocation: the clock reading inside `saveTokens`,
the answers of the token endpoint, whether `ListenAndServe` fails on port 8000,
and the code the browser redirect delivers to the local listener (`none`: no
code ever arrives). -/
structure World where
  saveTime : Int
  refreshResponse : Response
  listenFails : Bool
  callbackCode : Option String
  exchangeResponse : Response
  deriving DecidableEq

/-- Observable actions of the token lifecycle, in the order they happen. -/
inductive Effect where
  | refreshRequest (refreshToken clientID clientSecret : String)
  | openBrowser (clientID : String)
  | listenForCallback
  | exchangeRequest (code clientID clientSecret : String)
  | writeTokenFile (doc : GoMap Value)
  deriving DecidableEq

/-- How a call ends. -/
inductive Outcome where
  | returned (token : String)
  | fatal                            -- `log.Fatalf`
  | panicked                         -- run-time panic (nil map write, failed type assertion)
  | blocked                          -- `<-codeCh` never receives
  deriving DecidableEq

/-- The result of running one of the token functions: the manager afterwards,
the actions performed, and how the call ended. -/
structure Run where
  cm : configManager
  trace : List Effect
  outcome : Outcome
  deriving DecidableEq

/-- The tail shared by `exchangeCode` and `refreshAccessToken` once the request
has been sent: `log.Fatalf` on a transport error, then `cm.saveTokens(res)` and
`res["access_token"].(string)`. -/
def finishTokenRequest (cm : configManager) (saveTime : Int) (sent : List Effect) :
    Response → Run
  | .transportError => { cm := cm, trace := sent, outcome := .fatal }
  | .noResult => { cm := cm, trace := sent, outcome := .panicked }
  | .result res =>
    let (cm1, written) := saveTokens cm res saveTime
    { cm := cm1
      trace := sent ++ [.writeTokenFile written]
      outcome :=
        match written.get "access_token" with
        | some (.str tok) => .returned tok
        | _ => .panicked }

/-- The source's `refreshAccessToken`. -/
def refreshAccessToken (w : World) (cm : configManager) : Run :=
  finishTokenRequest cm w.saveTime
    [.refreshRequest (getToken cm "refresh_token") (getConfig cm "CLIENT_ID")
      (getConfig cm "CLIENT_SECRET")]
    w.refreshResponse

/-- The source's `exchangeCode`, continuing the actions `before` of the handshake. -/
def exchangeCode (w : World) (cm : configManager) (before : List Effect) (code : String) : Run :=
  finishTokenRequest cm w.saveTime
    (before ++ [.exchangeRequest code (getConfig cm "CLIENT_ID") (getConfig cm "CLIENT_SECRET")])
    w.exchangeResponse

/-- The source's `authorizeFlow`: open the browser, serve the callback, then
exchange the code received. The listener is taken as a whole: it fails to
start (`log.Fatalf`), or delivers a code, or the receive on `codeCh` never
completes. -/
def authorizeFlow (w : World) (cm : configManager) : Run :=
  let before := [Effect.openBrowser (getConfig cm "CLIENT_ID"), Effect.listenForCallback]
  if w.listenFails then { cm := cm, trace := before, outcome := .fatal }
  else
    match w.callbackCode with
    | none => { cm := cm, trace := before, outcome := .blocked }
    | some code => exchangeCode w cm before code

/-- The source's `getAccessToken`, called when the clock reads `now`. -/
def getAccessToken (w : World) (cm : configManager) (now : Int) : Run :=
  if !refreshNeeded cm now then
    { cm := cm, trace := [], outcome := .returned (getToken cm "access_token") }
  else if getToken cm "refresh_token" != "" then
    refreshAccessToken w cm
  else
    authorizeFlow w cm

/-- The action is the refresh request to the token endpoint. -/
def Effect.isRefresh : Effect → Bool
  | .refreshRequest _ _ _ => true
  | _ => false

/-- The action belongs to the authorization handshake. -/
def Effect.isHandshake : Effect → Bool
  | .openBrowser _ => true
  | .listenForCallback => true
  | .exchangeRequest _ _ _ => true
  | _ => false

/-- The run sent a refresh request. -/
def Run.refreshed (r : Run) : Bool := r.trace.any Effect.isRefresh

/-- The run went through the authorization handshake. -/
def Run.authorized (r : Run) : Bool := r.trace.any Effect.isHandshake

/-- The stored record holds a refresh credential: `refresh_token` is a
non-empty string. -/
def hasRefreshToken (cm : configManager) : Prop :=
  ∃ s : String, cm.tokens.get "refresh_token" = some (.str s) ∧ s ≠ ""

/-! ## Role filter (`filterByRole`) -/

/-- The struct behind the `Movie` and `Show` pointers of a `mediaItem`
(`Trakt` is the field `IDs.Trakt`). -/
structure Media where
  Title : String
  Year : Int
  Trakt : Int
  deriving DecidableEq

/-- The source's `mediaItem`: `none` is the nil pointer. -/
structure mediaItem where
  Movie : Option Media
  Show : Option Media
  Character : String
  Job : String
  deriving DecidableEq

/-- The source's `filtered` (`Type_` is the field `Type`). -/
structure filtered where
  Title : String
  Year : Int
  ID : Int
  Type_ : String
  Role : String
  deriving DecidableEq

/-- One rune pair of `strings.EqualFold`: equal runes match; two ASCII runes
match when they are an upper/lower pair; beyond ASCII the library walks the
`unicode.SimpleFold` orbit of the smaller rune, which is the argument `orbit`
(the Unicode case tables are data of the Go library). -/
def equalFoldRune (orbit : Char → Char → Bool) (sr tr : Char) : Bool :=
  if tr = sr then true
  else
    let lo := if tr < sr then tr else sr
    let hi := if tr < sr then sr else tr
    if hi.toNat < 128 then
      decide (65 ≤ lo.toNat ∧ lo.toNat ≤ 90 ∧ hi.toNat = lo.toNat + 32)
    else orbit lo hi

/-- The rune loop of `strings.EqualFold`. -/
def equalFoldRunes (orbit : Char → Char → Bool) : List Char → List Char → Bool
  | [], [] => true
  | [], _ :: _ => false
  | _ :: _, [] => false
  | sr :: s, tr :: t => equalFoldRune orbit sr tr && equalFoldRunes orbit s t

/-- Go's `strings.EqualFold`: equality under simple Unicode case folding. -/
def EqualFold (orbit : Char → Char → Bool) (s t : String) : Bool :=
  equalFoldRunes orbit s.data t.data

/-- The record appended for a movie or show `m` with the role label `label`. -/
def mkFiltered (m : Media) (type label : String) : filtered :=
  { Title := m.Title, Year := m.Year, ID := m.Trakt, Type_ := type, Role := label }

/-- The second `if` of a loop body of `filterByRole` (`c.Show != nil`), for an
entry whose role test gave `wanted` and whose label is `label`. -/
def showPart (moviesOnly wanted : Bool) (label : String) (res : List filtered)
    (c : mediaItem) : List filtered :=
  match c.Show with
  | some s =>
    if moviesOnly then res
    else if wanted then res ++ [mkFiltered s "show" label]
    else res
  | none => res

/-- One loop body of `filterByRole`: the `c.Movie != nil` block, whose
`continue` under `tvOnly` ends the iteration, then the `c.Show != nil` block. -/
def entryBody (moviesOnly tvOnly wanted : Bool) (label : String) (res : List filtered)
    (c : mediaItem) : List filtered :=
  match c.Movie with
  | some m =>
    if tvOnly then res
    else
      let res := if wanted then res ++ [mkFiltered m "movie" label] else res
      showPart moviesOnly wanted label res c
  | none => showPart moviesOnly wanted label res c

/-- The body of the loop over `cast`. -/
def castBody (role : String) (moviesOnly tvOnly : Bool) (res : List filtered)
    (c : mediaItem) : List filtered :=
  entryBody moviesOnly tvOnly (role == "" || role == "cast") ("cast: " ++ c.Character) res c

/-- The body of the inner loop over the entries of department `dept`. -/
def crewBody (orbit : Char → Char → Bool) (role : String) (moviesOnly tvOnly : Bool)
    (dept : String) (res : List filtered) (c : mediaItem) : List filtered :=
  entryBody moviesOnly tvOnly (role == "" || EqualFold orbit c.Job role)
    (c.Job ++ " (" ++ dept ++ ")") res c

/-- The source's `filterByRole` on the decoded filmography: `cast` is the
decoded `raw["cast"]`, and `crew` lists the entries of the decoded `raw["crew"]`
map in the order in which `range crew` visits them. The flag `all` (here `_all`) is not read
by the body. -/
def filterByRole (orbit : Char → Char → Bool) (cast : List mediaItem)
    (crew : GoMap (List mediaItem)) (role : String) (moviesOnly tvOnly _all : Bool) :
    List filtered :=
  let res := cast.foldl (castBody role moviesOnly tvOnly) []
  crew.foldl (fun res p => p.2.foldl (crewBody orbit role moviesOnly tvOnly p.1) res) res

/-- The records an entry carries: one for its movie and one for its show, in
that order, each with the title, year and catalog id of what it stands for, the
matching type, and the role label `label`. -/
def carried (label : String) (c : mediaItem) : List filtered :=
  (c.Movie.toList.map fun m =>
    { Title := m.Title, Year := m.Year, ID := m.Trakt, Type_ := "movie", Role := label }) ++
  (c.Show.toList.map fun s =>
    { Title := s.Title, Year := s.Year, ID := s.Trakt, Type_ := "show", Role := label })

/-- The orders in which `range` may visit the entries of the map `m`: Go leaves
the iteration order of a map unspecified, so every arrangement of the entries
is one. -/
def RangeOrder (m visit : GoMap (List mediaItem)) : Prop := visit.Perm m

/-! ## Batched publishing (`addMediaToList`) -/

/-- One iteration of the loop of `addMediaToList`: the slice `items[i:end]` and
the two payloads built from it (Trakt ids). -/
structure Batch where
  items : List filtered
  moviesPayload : List Int
  showsPayload : List Int
  deriving DecidableEq

/-- The inner loop over `items[i:end]`: movies go to `moviesPayload`, everything
else to `showsPayload`. -/
def splitPayload (slice : List filtered) : List Int × List Int :=
  slice.foldl
    (fun acc it => if it.Type_ = "movie" then (acc.1 ++ [it.ID], acc.2) else (acc.1, acc.2 ++ [it.ID]))
    ([], [])

/-- The loop `for i := 0; i < len(items); i += batch` of `addMediaToList`,
from index `i` on. -/
def addMediaToListFrom (items : List filtered) (i : Nat) : List Batch :=
  if i < items.length then
    let stop := if items.length < i + 10 then items.length else i + 10
    let slice := (items.drop i).take (stop - i)
    let payload := splitPayload slice
    { items := slice, moviesPayload := payload.1, showsPayload := payload.2 } ::
      addMediaToListFrom items (i + 10)
  else []
termination_by items.length - i

/-- The source's `addMediaToList`: the batches processed, in order. -/
def addMediaToList (items : List filtered) : List Batch :=
  addMediaToListFrom items 0

/-- An action of one batch of `addMediaToList`. -/
inductive Upload where
  | postMovies (ids : List Int)
  | postShows (ids : List Int)
  | sleepSecond
  deriving DecidableEq

/-- The requests one loop iteration makes: a post of the movies when there are
any, a post of the shows when there are any, then the pause. -/
def Batch.uploads (b : Batch) : List Upload :=
  (if 0 < b.moviesPayload.length then [Upload.postMovies b.moviesPayload] else []) ++
  (if 0 < b.showsPayload.length then [Upload.postShows b.showsPayload] else []) ++
  [Upload.sleepSecond]


/-! ## Sample data used by the concrete instances below -/

/-- A world in which both token requests succeed and the browser returns a code. -/
def exampleWorld : World :=
  { saveTime := 1700010000
    refreshResponse :=
      .result (decodeObject [("access_token", .str "new"), ("expires_in", .number 7200)])
    listenFails := false
    callbackCode := some "code"
    exchangeResponse :=
      .result (decodeObject [("access_token", .str "first"), ("expires_in", .number 7200)]) }

/-- A stored token record created at 1700000000 that lasts 7200 seconds. -/
def storedRecord : GoMap Json :=
  [("access_token", .str "old"), ("refresh_token", .str "ref"),
    ("expires_in", .number 7200), ("created_at", .number 1700000000)]

/-- The manager holding `storedRecord` as loaded. -/
def storedManager : configManager := ⟨[], decodeObject storedRecord⟩

/-- A token endpoint answer as `saveTokens` receives it. -/
def tokenAnswer : GoMap Value :=
  decodeObject
    [("access_token", .str "tok"), ("refresh_token", .str "ref"), ("expires_in", .number 7200)]

/-- A stored record with `created_at` but no `expires_in`. -/
def createdOnlyRecord : GoMap Json :=
  [("access_token", .str "t"), ("created_at", .number 1700000000)]

/-- A stored record whose `created_at = 2^60 + 1` is not a float64; its expiry
instant `created_at + expires_in` is 1700000001. -/
def roundedStampRecord : GoMap Json :=
  [("expires_in", .number (-1152921502906846976)), ("created_at", .number 1152921504606846977)]

/-- A stored record whose expiry instant `2^53 + 1` is not a float64. -/
def farFutureRecord : GoMap Json :=
  [("expires_in", .number 1), ("created_at", .number 9007199254740992)]


/-- A crew entry: a movie directed. -/
def directedMovie : mediaItem := ⟨some ⟨"Alpha", 2001, 11⟩, none, "", "Director"⟩

/-- A crew entry: a show written. -/
def writtenShow : mediaItem := ⟨none, some ⟨"Beta", 2002, 22⟩, "", "Writer"⟩

/-- A cast entry that carries both a movie and a show. -/
def doubleEntry : mediaItem :=
  ⟨some ⟨"Alpha", 2001, 11⟩, some ⟨"Beta", 2002, 22⟩, "Lead", ""⟩

/-- A filtered movie record. -/
def movieRecord : filtered := ⟨"Alpha", 2001, 11, "movie", "cast: Lead"⟩

/-! ## Lemmas on maps, float64 rounding and decoding -/

theorem f64Ulp_of_lt (a : Nat) (h : a < 2 ^ 53) : f64Ulp a = 1 := by
  show f64UlpAux (1023 + 1) a 1 = 1
  rw [f64UlpAux, if_pos (by omega)]

theorem f64Ulp_two_pow : f64Ulp (2 ^ 53) = 2 := by decide

/-- Integers of magnitude at most `2^53` are doubles: rounding leaves them alone. -/
theorem f64Round_exact (z : Int) (h : z.natAbs ≤ 2 ^ 53) : f64Round z = z := by
  rcases Nat.lt_or_ge z.natAbs (2 ^ 53) with hlt | hge
  · simp only [f64Round, f64Ulp_of_lt _ hlt, Nat.mod_one, Nat.div_one, Nat.mul_one]
    rw [if_neg (by omega)]
    exact Int.sign_mul_natAbs z
  · have he : z.natAbs = 2 ^ 53 := le_antisymm h hge
    simp only [f64Round, he, f64Ulp_two_pow]
    have hm : (if 2 < 2 * (2 ^ 53 % 2) ∨ 2 * (2 ^ 53 % 2) = 2 ∧ 2 ^ 53 / 2 % 2 = 1
        then 2 ^ 53 / 2 + 1 else 2 ^ 53 / 2) * 2 = 2 ^ 53 := by decide
    rw [hm, ← he]
    exact Int.sign_mul_natAbs z

theorem isF64_of_le (z : Int) (h : z.natAbs ≤ 2 ^ 53) : isF64 z = true := by
  unfold isF64
  rw [f64Round_exact z h]
  have hs : z.natAbs >>> 1024 = 0 := by
    rw [Nat.shiftRight_eq_div_pow]
    apply Nat.div_eq_of_lt
    calc z.natAbs ≤ 2 ^ 53 := h
      _ < 2 ^ 1024 := Nat.pow_lt_pow_right (by decide) (by decide)
  simp [hs]

/-- Rounding leaves the value of a double alone. -/
theorem isF64_round (v : Int) (h : isF64 v = true) : f64Round v = v := by
  unfold isF64 at h
  simp only [Bool.and_eq_true, beq_iff_eq] at h
  exact h.1

/-- A double holds what rounding leaves alone. -/
theorem F64.round_toInt (d : F64) : f64Round d.toInt = d.toInt :=
  isF64_round d.toInt d.ok

/-- An integer literal that a float64 can hold decodes to the double holding it. -/
theorem decodeJson_number_exact (n : Int) (h : isF64 n = true) :
    assertFloat64 (some (decodeJson (.number n))) = (n, true) := by
  have hr := isF64_round n h
  have hok : isF64 (f64Round n) = true := by rw [hr]; exact h
  simp only [decodeJson, dif_pos hok, assertFloat64]
  exact Prod.ext hr rfl

/-- Writing a double to the token file and decoding it gives the same double back. -/
theorem decodeJson_encodeJson_float (d : F64) :
    decodeJson (encodeJson (.float64 d)) = .float64 d := by
  have hr := d.round_toInt
  have hok : isF64 (f64Round d.toInt) = true := by rw [hr]; exact d.ok
  simp only [encodeJson, decodeJson, dif_pos hok]
  congr 1
  cases d
  simp only [F64.mk.injEq]
  exact hr

theorem get_set_self {β : Type} (m : GoMap β) (k : String) (v : β) :
    (m.set k v).get k = some v := by
  simp [GoMap.get, GoMap.set, List.lookup]

theorem lookup_filter_ne {β : Type} (m : List (String × β)) (k k' : String) (h : k' ≠ k) :
    List.lookup k' (m.filter (fun p => p.1 != k)) = List.lookup k' m := by
  induction m with
  | nil => rfl
  | cons p m ih =>
    obtain ⟨a, b⟩ := p
    by_cases ha : a = k
    · have hk2 : (k' == a) = false := by simpa [ha] using h
      rw [List.filter_cons_of_neg (by simp [ha]), List.lookup_cons, hk2, ih]
    · rw [List.filter_cons_of_pos (by simpa using ha), List.lookup_cons, List.lookup_cons, ih]

theorem get_set_other {β : Type} (m : GoMap β) (k k' : String) (v : β) (h : k' ≠ k) :
    (m.set k v).get k' = m.get k' := by
  unfold GoMap.get GoMap.set
  have hk : (k' == k) = false := by simpa using h
  rw [List.lookup_cons, hk]
  exact lookup_filter_ne m k k' h

theorem lookup_map_snd {β γ : Type} (f : β → γ) (m : List (String × β)) (k : String) :
    List.lookup k (m.map (fun p => (p.1, f p.2))) = (List.lookup k m).map f := by
  induction m with
  | nil => rfl
  | cons p m ih =>
    obtain ⟨a, b⟩ := p
    simp only [List.map_cons, List.lookup_cons]
    cases (k == a) <;> simp [ih]

theorem get_decodeObject (doc : GoMap Json) (k : String) :
    (decodeObject doc).get k = (doc.get k).map decodeJson :=
  lookup_map_snd decodeJson doc k

/-! ## Credential store -/

theorem refreshNeeded_of_assert (cm : configManager) (now c e : Int)
    (he : assertFloat64 (cm.tokens.get "expires_in") = (e, true))
    (hc : assertFloat64 (cm.tokens.get "created_at") = (c, true)) :
    refreshNeeded cm now = !decide (now < int64OfFloat (f64Add c e)) := by
  simp [refreshNeeded, he, hc]

theorem refreshNeeded_of_not_float (cm : configManager) (now : Int)
    (h : (assertFloat64 (cm.tokens.get "expires_in")).2 = false ∨
      (assertFloat64 (cm.tokens.get "created_at")).2 = false) :
    refreshNeeded cm now = true := by
  unfold refreshNeeded
  rcases h with h | h <;> simp [h]

/-- When both fields are doubles holding `e` and `c`, and the expiry instant
`c + e` is a double too and lies in the int64 range, the staleness test is the
integer comparison. -/
theorem refreshNeeded_exact (cm : configManager) (t c e : Int)
    (he : assertFloat64 (cm.tokens.get "expires_in") = (e, true))
    (hc : assertFloat64 (cm.tokens.get "created_at") = (c, true))
    (hsum : isF64 (c + e) = true)
    (hrange : -(2 : Int) ^ 63 ≤ c + e ∧ c + e < (2 : Int) ^ 63) :
    refreshNeeded cm t = !decide (t < c + e) := by
  rw [refreshNeeded_of_assert cm t c e he hc, f64Add, isF64_round _ hsum, int64OfFloat,
    if_pos hrange]

/-- The same, for an expiry instant of magnitude at most `2^53`. -/
theorem refreshNeeded_exact_of_le (cm : configManager) (t c e : Int)
    (he : assertFloat64 (cm.tokens.get "expires_in") = (e, true))
    (hc : assertFloat64 (cm.tokens.get "created_at") = (c, true))
    (hsum : (c + e).natAbs ≤ 2 ^ 53) :
    refreshNeeded cm t = !decide (t < c + e) :=
  refreshNeeded_exact cm t c e he hc (isF64_of_le _ hsum) (by constructor <;> omega)

/-- The loaded record holds exactly an integer field that a float64 can hold. -/
theorem assertFloat64_decodeObject (doc : GoMap Json) (k : String) (n : Int)
    (h : doc.get k = some (.number n)) (hn : isF64 n = true) :
    assertFloat64 ((decodeObject doc).get k) = (n, true) := by
  rw [get_decodeObject, h]
  exact decodeJson_number_exact n hn

/-- C2, as amended: for every stored credential record in which `expires_in`
and `created_at` are both present as integers `e` and `c` (seconds) that a
float64 holds exactly, and whose sum `c + e` a float64 also holds exactly and
lies in the int64 range (all of which is the case when the two values and
their sum have magnitude at most `2^53`), and for every current time `now`:
the record as loaded holds exactly `e` and `c`, and `refreshNeeded` on it
returns false if and only if `now < c + e`; in particular it returns true at
`now = c + e` and at every later instant. -/
theorem refreshNeeded_false_iff (config : GoMap String) (doc : GoMap Json) (now c e : Int)
    (he : doc.get "expires_in" = some (.number e))
    (hc : doc.get "created_at" = some (.number c))
    (heb : isF64 e = true) (hcb : isF64 c = true) (hsum : isF64 (c + e) = true)
    (hrange : -(2 : Int) ^ 63 ≤ c + e ∧ c + e < (2 : Int) ^ 63) :
    assertTokens (loadJSON (.document doc)) = some (decodeObject doc) ∧
    assertFloat64 ((decodeObject doc).get "expires_in") = (e, true) ∧
    assertFloat64 ((decodeObject doc).get "created_at") = (c, true) ∧
    (refreshNeeded ⟨config, decodeObject doc⟩ now = false ↔ now < c + e) ∧
    (∀ t : Int, c + e ≤ t → refreshNeeded ⟨config, decodeObject doc⟩ t = true) := by
  have he' := assertFloat64_decodeObject doc "expires_in" e he heb
  have hc' := assertFloat64_decodeObject doc "created_at" c hc hcb
  refine ⟨rfl, he', hc', ?_, ?_⟩
  · rw [refreshNeeded_exact ⟨config, decodeObject doc⟩ now c e he' hc' hsum hrange]; simp
  · intro t ht
    rw [refreshNeeded_exact ⟨config, decodeObject doc⟩ t c e he' hc' hsum hrange]
    simpa using ht

/-- C2, witness: a record created at 1700000000 with a lifetime of 7200 seconds,
read 3600 seconds later. -/
theorem refreshNeeded_false_iff_witness :
    (refreshNeeded storedManager 1700003600 = false ↔ (1700003600 : Int) < 1700000000 + 7200) ∧
    (∀ t : Int, (1700000000 : Int) + 7200 ≤ t → refreshNeeded storedManager t = true) :=
  (refreshNeeded_false_iff [] storedRecord 1700003600 1700000000 7200 rfl rfl (by decide)
    (by decide) (by decide) (by decide)).2.2.2

/-- C2, counterexample to the claim as stated, at two stored records whose
fields are integer seconds. First: `created_at = 2^60 + 1` and
`expires_in = -(2^60 - 1700000000)`, so that `created_at + expires_in` is
1700000001; decoding rounds `created_at` to `2^60`, the float64 sum is
1700000000, and at `now = 1700000000`, before the expiry instant,
`refreshNeeded` returns true. Second: `created_at = 2^53` and `expires_in = 1`;
the float64 sum rounds `2^53 + 1` down to `2^53`, and at `now = 2^53`, before
the expiry instant, `refreshNeeded` returns true. -/
theorem refreshNeeded_float_rounding_counterexample :
    (roundedStampRecord.get "expires_in" = some (.number (-1152921502906846976)) ∧
      roundedStampRecord.get "created_at" = some (.number 1152921504606846977) ∧
      (1700000000 : Int) < 1152921504606846977 + -1152921502906846976 ∧
      assertTokens (loadJSON (.document roundedStampRecord)) =
        some (decodeObject roundedStampRecord) ∧
      refreshNeeded ⟨[], decodeObject roundedStampRecord⟩ 1700000000 = true) ∧
    (farFutureRecord.get "expires_in" = some (.number 1) ∧
      farFutureRecord.get "created_at" = some (.number 9007199254740992) ∧
      (9007199254740992 : Int) < 9007199254740992 + 1 ∧
      assertTokens (loadJSON (.document farFutureRecord)) = some (decodeObject farFutureRecord) ∧
      refreshNeeded ⟨[], decodeObject farFutureRecord⟩ 9007199254740992 = true) :=
  ⟨⟨rfl, rfl, by decide, rfl, by decide⟩, ⟨rfl, rfl, by decide, rfl, by decide⟩⟩

/-- C3: for every credential record that lacks `expires_in` or lacks
`created_at` (or both), and for every current time, `refreshNeeded` returns
true; this includes the empty record `loadJSON` produces for missing,
unreadable or malformed storage. -/
theorem refreshNeeded_missing_field (cm : configManager) (now : Int) :
    ((cm.tokens.get "expires_in" = none ∨ cm.tokens.get "created_at" = none) →
      refreshNeeded cm now = true) ∧
    (∀ st : Storage, (st = .missing ∨ st = .unreadable ∨ st = .malformed) →
      loadJSON st = .object [] ∧ assertTokens (loadJSON st) = some [] ∧
      refreshNeeded { cm with tokens := [] } now = true) := by
  refine ⟨?_, ?_⟩
  · intro h
    apply refreshNeeded_of_not_float
    rcases h with h | h
    · left; rw [h]; rfl
    · right; rw [h]; rfl
  · intro st hst
    rcases hst with h | h | h <;> subst h <;> exact ⟨rfl, rfl, rfl⟩

/-- C3, witness: a record with `created_at` but no `expires_in`, and the record
loaded from malformed storage. -/
theorem refreshNeeded_missing_field_witness :
    refreshNeeded ⟨[], decodeObject createdOnlyRecord⟩ 1700000001 = true ∧
    (assertTokens (loadJSON .malformed) = some [] ∧ refreshNeeded ⟨[], []⟩ 0 = true) :=
  ⟨(refreshNeeded_missing_field ⟨[], decodeObject createdOnlyRecord⟩ 1700000001).1 (Or.inl rfl),
    ((refreshNeeded_missing_field ⟨[], []⟩ 0).2 .malformed (Or.inr (Or.inr rfl))).2⟩

theorem saveTokens_created_at (cm : configManager) (data : GoMap Value) (s : Int) :
    (saveTokens cm data s).1.tokens.get "created_at" = some (.int64 s) := by
  simp only [saveTokens]
  exact get_set_self data "created_at" (.int64 s)

/-- After `saveTokens` the in-memory `created_at` is an int64, the assertion
`.(float64)` in `refreshNeeded` fails, and the record is reported stale at
every instant. -/
theorem refreshNeeded_after_saveTokens (cm : configManager) (data : GoMap Value) (s t : Int) :
    refreshNeeded (saveTokens cm data s).1 t = true := by
  apply refreshNeeded_of_not_float
  right
  rw [saveTokens_created_at]
  rfl

/-- C9, at the failing input: a token answer with `expires_in = 7200` saved at
instant 1700000000 leaves `created_at = 1700000000` in memory, yet
`refreshNeeded` on that manager at the very same instant returns true. -/
theorem saveTokens_fresh_record_reported_stale :
    (saveTokens ⟨[], []⟩ tokenAnswer 1700000000).1.tokens.get "created_at" =
      some (.int64 1700000000) ∧
    assertFloat64 ((saveTokens ⟨[], []⟩ tokenAnswer 1700000000).1.tokens.get "expires_in") =
      (7200, true) ∧
    refreshNeeded (saveTokens ⟨[], []⟩ tokenAnswer 1700000000).1 1700000000 = true :=
  ⟨by decide, by decide, by decide⟩

/-- The sibling path: the record a later process reloads from the file that
`saveTokens` wrote is fresh throughout its lifetime. -/
theorem reload_fresh (cm : configManager) (data : GoMap Value) (e : F64) (s t : Int)
    (he : data.get "expires_in" = some (.float64 e))
    (hs : s.natAbs ≤ 2 ^ 53) (hse : (s + e.toInt).natAbs ≤ 2 ^ 53) (h2 : t < s + e.toInt) :
    refreshNeeded { cm with tokens := reload (saveTokens cm data s).2 } t = false := by
  have hc : assertFloat64 ((reload (saveTokens cm data s).2).get "created_at") = (s, true) := by
    simp only [reload, tokenFileOf, decodeObject, saveTokens, GoMap.get]
    rw [lookup_map_snd, lookup_map_snd]
    have := get_set_self data "created_at" (.int64 s)
    unfold GoMap.get at this
    rw [this]
    exact decodeJson_number_exact s (isF64_of_le s hs)
  have he2 : assertFloat64 ((reload (saveTokens cm data s).2).get "expires_in") =
      (e.toInt, true) := by
    simp only [reload, tokenFileOf, decodeObject, saveTokens, GoMap.get]
    rw [lookup_map_snd, lookup_map_snd]
    have := get_set_other data "created_at" "expires_in" (.int64 s) (by decide)
    unfold GoMap.get at this he
    rw [this, he]
    simp only [Option.map_some', decodeJson_encodeJson_float]
    rfl
  rw [refreshNeeded_exact_of_le _ t s e.toInt he2 hc hse]
  simpa using h2


/-! ## Token lifecycle -/

theorem getToken_ne_empty_iff (cm : configManager) :
    getToken cm "refresh_token" ≠ "" ↔ hasRefreshToken cm := by
  unfold getToken hasRefreshToken
  constructor
  · intro h
    split at h
    · next v hv => exact ⟨v, hv, h⟩
    · exact absurd rfl h
  · rintro ⟨s, hs, hne⟩
    rw [hs]
    exact hne

theorem finishTokenRequest_trace (cm : configManager) (t : Int) (sent : List Effect)
    (r : Response) :
    (finishTokenRequest cm t sent r).trace = sent ∨
    ∃ doc, (finishTokenRequest cm t sent r).trace = sent ++ [.writeTokenFile doc] := by
  cases r with
  | transportError => exact Or.inl rfl
  | noResult => exact Or.inl rfl
  | result res => exact Or.inr ⟨_, rfl⟩

theorem refreshAccessToken_paths (w : World) (cm : configManager) :
    (refreshAccessToken w cm).refreshed = true ∧
    (refreshAccessToken w cm).authorized = false := by
  unfold refreshAccessToken Run.refreshed Run.authorized
  rcases finishTokenRequest_trace cm w.saveTime
      [.refreshRequest (getToken cm "refresh_token") (getConfig cm "CLIENT_ID")
        (getConfig cm "CLIENT_SECRET")] w.refreshResponse with h | ⟨doc, h⟩ <;>
    rw [h] <;> simp [Effect.isRefresh, Effect.isHandshake]

theorem authorizeFlow_paths (w : World) (cm : configManager) :
    (authorizeFlow w cm).authorized = true ∧
    (authorizeFlow w cm).refreshed = false := by
  unfold authorizeFlow Run.refreshed Run.authorized
  cases hlisten : w.listenFails with
  | true => simp [Effect.isRefresh, Effect.isHandshake]
  | false =>
    cases hcode : w.callbackCode with
    | none => simp [Effect.isRefresh, Effect.isHandshake]
    | some code =>
      simp only [exchangeCode, Bool.false_eq_true, if_false]
      rcases finishTokenRequest_trace cm w.saveTime
          ([Effect.openBrowser (getConfig cm "CLIENT_ID"), Effect.listenForCallback] ++
            [.exchangeRequest code (getConfig cm "CLIENT_ID") (getConfig cm "CLIENT_SECRET")])
          w.exchangeResponse with h | ⟨doc, h⟩ <;>
        rw [h] <;> simp [Effect.isRefresh, Effect.isHandshake]

/-- C1: for every credential state (and every behaviour of the network and the
browser), `getAccessToken` takes exactly one of three paths, decided by
`refreshNeeded` and the stored `refresh_token` alone: (1) not stale: it returns
the stored `access_token`, performs no action at all and leaves the manager
unchanged; (2) stale with a non-empty string `refresh_token`: it sends the
refresh request and performs no step of the authorization handshake; (3) stale
without one: it performs the authorization handshake and sends no refresh
request. No run does both. -/
theorem getAccessToken_three_paths (w : World) (cm : configManager) (now : Int) :
    (refreshNeeded cm now = false →
      (getAccessToken w cm now).outcome = .returned (getToken cm "access_token") ∧
      (getAccessToken w cm now).cm = cm ∧
      (getAccessToken w cm now).trace = [] ∧
      (getAccessToken w cm now).refreshed = false ∧
      (getAccessToken w cm now).authorized = false) ∧
    (refreshNeeded cm now = true → hasRefreshToken cm →
      (getAccessToken w cm now).refreshed = true ∧
      (getAccessToken w cm now).authorized = false) ∧
    (refreshNeeded cm now = true → ¬ hasRefreshToken cm →
      (getAccessToken w cm now).authorized = true ∧
      (getAccessToken w cm now).refreshed = false) ∧
    ¬ ((getAccessToken w cm now).refreshed = true ∧
      (getAccessToken w cm now).authorized = true) := by
  have h1 : refreshNeeded cm now = false →
      (getAccessToken w cm now).outcome = .returned (getToken cm "access_token") ∧
      (getAccessToken w cm now).cm = cm ∧
      (getAccessToken w cm now).trace = [] ∧
      (getAccessToken w cm now).refreshed = false ∧
      (getAccessToken w cm now).authorized = false := by
    intro h
    simp [getAccessToken, h, Run.refreshed, Run.authorized]
  have h2 : refreshNeeded cm now = true → hasRefreshToken cm →
      (getAccessToken w cm now).refreshed = true ∧
      (getAccessToken w cm now).authorized = false := by
    intro h hr
    have hne := (getToken_ne_empty_iff cm).2 hr
    have : getAccessToken w cm now = refreshAccessToken w cm := by
      simp [getAccessToken, h, hne]
    rw [this]
    exact refreshAccessToken_paths w cm
  have h3 : refreshNeeded cm now = true → ¬ hasRefreshToken cm →
      (getAccessToken w cm now).authorized = true ∧
      (getAccessToken w cm now).refreshed = false := by
    intro h hr
    have he : getToken cm "refresh_token" = "" := by
      by_contra hne
      exact hr ((getToken_ne_empty_iff cm).1 hne)
    have : getAccessToken w cm now = authorizeFlow w cm := by
      simp [getAccessToken, h, he]
    rw [this]
    exact authorizeFlow_paths w cm
  refine ⟨h1, h2, h3, ?_⟩
  rintro ⟨hr, ha⟩
  cases hs : refreshNeeded cm now with
  | false =>
    have := (h1 hs).2.2.2.1
    rw [hr] at this
    exact Bool.noConfusion this
  | true =>
    by_cases ht : hasRefreshToken cm
    · have := (h2 hs ht).2
      rw [ha] at this
      exact Bool.noConfusion this
    · have := (h3 hs ht).2
      rw [hr] at this
      exact Bool.noConfusion this

/-- C1, witness: the stored record read while fresh, read after expiry, and the
empty record. -/
theorem getAccessToken_three_paths_witness :
    ((getAccessToken exampleWorld storedManager 1700000001).outcome = .returned "old" ∧
      (getAccessToken exampleWorld storedManager 1700000001).trace = []) ∧
    ((getAccessToken exampleWorld storedManager 1700007200).refreshed = true ∧
      (getAccessToken exampleWorld storedManager 1700007200).authorized = false) ∧
    ((getAccessToken exampleWorld ⟨[], []⟩ 0).authorized = true ∧
      (getAccessToken exampleWorld ⟨[], []⟩ 0).refreshed = false) := by
  refine ⟨?_, ?_, ?_⟩
  · have h := (getAccessToken_three_paths exampleWorld storedManager 1700000001).1 (by decide)
    exact ⟨h.1, h.2.2.1⟩
  · exact (getAccessToken_three_paths exampleWorld storedManager 1700007200).2.1 (by decide)
      ⟨"ref", rfl, by decide⟩
  · exact (getAccessToken_three_paths exampleWorld ⟨[], []⟩ 0).2.2.1 (by decide)
      (by rintro ⟨s, hs, -⟩; exact Option.noConfusion hs)

/-! ## Role filter -/

theorem showPart_append (moviesOnly wanted : Bool) (label : String) (res : List filtered)
    (c : mediaItem) :
    showPart moviesOnly wanted label res c = res ++ showPart moviesOnly wanted label [] c := by
  unfold showPart
  cases c.Show <;> cases moviesOnly <;> cases wanted <;> simp

/-- A loop body only appends to the accumulated result. -/
theorem entryBody_append (moviesOnly tvOnly wanted : Bool) (label : String)
    (res : List filtered) (c : mediaItem) :
    entryBody moviesOnly tvOnly wanted label res c =
      res ++ entryBody moviesOnly tvOnly wanted label [] c := by
  unfold entryBody
  cases c.Movie with
  | none => exact showPart_append _ _ _ _ _
  | some m =>
    cases tvOnly
    · cases wanted
      · simpa using showPart_append _ _ _ _ _
      · simp only [Bool.false_eq_true, if_false, if_true, List.nil_append]
        rw [showPart_append, showPart_append moviesOnly true label [mkFiltered m "movie" label]]
        simp
    · simp

theorem foldl_body_flatMap {α β : Type} (body : List β → α → List β)
    (h : ∀ res c, body res c = res ++ body [] c) (l : List α) (res : List β) :
    l.foldl body res = res ++ l.flatMap (body []) := by
  induction l generalizing res with
  | nil => simp
  | cons c l ih => rw [List.foldl_cons, ih, h res c, List.flatMap_cons, List.append_assoc]

/-- The two loops of `filterByRole` as the concatenation of what each entry adds. -/
theorem filterByRole_eq (orbit : Char → Char → Bool) (cast : List mediaItem)
    (crew : GoMap (List mediaItem)) (role : String) (moviesOnly tvOnly all : Bool) :
    filterByRole orbit cast crew role moviesOnly tvOnly all =
      cast.flatMap (castBody role moviesOnly tvOnly []) ++
      crew.flatMap (fun p => p.2.flatMap (crewBody orbit role moviesOnly tvOnly p.1 [])) := by
  unfold filterByRole
  have hcast : ∀ res c, castBody role moviesOnly tvOnly res c =
      res ++ castBody role moviesOnly tvOnly [] c :=
    fun res c => entryBody_append _ _ _ _ res c
  have hcrew : ∀ dept res c, crewBody orbit role moviesOnly tvOnly dept res c =
      res ++ crewBody orbit role moviesOnly tvOnly dept [] c :=
    fun dept res c => entryBody_append _ _ _ _ res c
  have hdept : ∀ (res : List filtered) (p : String × List mediaItem),
      p.2.foldl (crewBody orbit role moviesOnly tvOnly p.1) res =
        res ++ p.2.foldl (crewBody orbit role moviesOnly tvOnly p.1) [] := by
    intro res p
    rw [foldl_body_flatMap _ (hcrew p.1) p.2 res, foldl_body_flatMap _ (hcrew p.1) p.2 []]
    simp
  simp only []
  rw [foldl_body_flatMap (fun res p => p.2.foldl (crewBody orbit role moviesOnly tvOnly p.1) res)
    hdept crew, foldl_body_flatMap _ hcast cast []]
  simp only [List.nil_append]
  congr 1
  congr 1
  funext p
  rw [foldl_body_flatMap _ (hcrew p.1) p.2 []]
  simp

theorem entryBody_unflagged (wanted : Bool) (label : String) (c : mediaItem) :
    entryBody false false wanted label [] c = if wanted then carried label c else [] := by
  unfold entryBody showPart carried mkFiltered
  cases c.Movie <;> cases c.Show <;> cases wanted <;> simp

theorem mem_entryBody_type (moviesOnly tvOnly wanted : Bool) (label : String) (c : mediaItem)
    (r : filtered) (h : r ∈ entryBody moviesOnly tvOnly wanted label [] c) :
    (r.Type_ = "movie" ∧ tvOnly = false) ∨ (r.Type_ = "show" ∧ moviesOnly = false) := by
  unfold entryBody showPart mkFiltered at h
  cases hm : c.Movie <;> cases hs : c.Show <;> cases moviesOnly <;> cases tvOnly <;>
    cases wanted <;> simp [hm, hs] at h <;>
    first
      | (subst h; simp)
      | (rcases h with rfl | rfl <;> simp)

theorem carried_ne_nil (label : String) (c : mediaItem)
    (h : c.Movie.isSome = true ∨ c.Show.isSome = true) : carried label c ≠ [] := by
  unfold carried
  cases hm : c.Movie <;> cases hs : c.Show <;> simp [hm, hs] at h ⊢

theorem mem_carried (label : String) (c : mediaItem) (r : filtered) (h : r ∈ carried label c) :
    r.Role = label ∧
    ((r.Type_ = "movie" ∧ c.Movie = some ⟨r.Title, r.Year, r.ID⟩) ∨
     (r.Type_ = "show" ∧ c.Show = some ⟨r.Title, r.Year, r.ID⟩)) := by
  unfold carried at h
  cases hm : c.Movie <;> cases hs : c.Show <;> simp [hm, hs] at h <;>
    first
      | (subst h; simp)
      | (rcases h with rfl | rfl <;> simp)

theorem crewBody_unflagged (orbit : Char → Char → Bool) (role dept : String) (c : mediaItem) :
    crewBody orbit role false false dept [] c =
      if role = "" ∨ EqualFold orbit c.Job role = true then
        carried (c.Job ++ " (" ++ dept ++ ")") c
      else [] := by
  simp only [crewBody, entryBody_unflagged]
  by_cases h : role = "" ∨ EqualFold orbit c.Job role = true
  · have hb : (role == "" || EqualFold orbit c.Job role) = true := by simpa using h
    rw [if_pos hb, if_pos h]
  · have hb : ¬ (role == "" || EqualFold orbit c.Job role) = true := by simpa using h
    rw [if_neg hb, if_neg h]

/-- C4: for every filmography whose crew bucket is empty, with no exclusion
flag set and any value of `all`: when the role filter is `""` or exactly
`"cast"`, `filterByRole` returns, for each cast entry in order, one record per
movie and show the entry carries, with title, year and catalog id copied, type
`"movie"` or `"show"`, and role `"cast: "` followed by the character; for every
other role string it returns no record, in particular for `"Cast"` and
`"CAST"`. -/
theorem filterByRole_cast_exact_match (orbit : Char → Char → Bool) (cast : List mediaItem)
    (role : String) (all : Bool) :
    filterByRole orbit cast [] role false false all =
      (if role = "" ∨ role = "cast" then
        cast.flatMap (fun c => carried ("cast: " ++ c.Character) c)
      else []) ∧
    filterByRole orbit cast [] "Cast" false false all = [] ∧
    filterByRole orbit cast [] "CAST" false false all = [] := by
  have key : ∀ role : String, filterByRole orbit cast [] role false false all =
      (if role = "" ∨ role = "cast" then
        cast.flatMap (fun c => carried ("cast: " ++ c.Character) c)
      else []) := by
    intro role
    have hbody : castBody role false false [] = fun c =>
        if (role == "" || role == "cast") = true then carried ("cast: " ++ c.Character) c
        else [] := by
      funext c
      simp only [castBody, entryBody_unflagged]
    rw [filterByRole_eq, hbody]
    simp only [List.flatMap_nil, List.append_nil]
    by_cases h : role = "" ∨ role = "cast"
    · have hb : (role == "" || role == "cast") = true := by simpa using h
      simp only [hb, if_true, if_pos h]
    · have hb : (role == "" || role == "cast") = false := by
        rw [Bool.eq_false_iff]; simpa using h
      simp [hb, h]
  refine ⟨key role, ?_, ?_⟩
  · rw [key, if_neg (by decide)]
  · rw [key, if_neg (by decide)]

/-- C5: for every filmography whose cast bucket is empty, with no exclusion
flag set, and every role string: the output of `filterByRole` is, department by
department and entry by entry, the records the entry carries, labelled with its
job followed by the department in parentheses, when the role filter is empty or
`strings.EqualFold` to the job, and nothing otherwise; so an entry that carries
a title contributes a record if and only if the filter is empty or equals its
job ignoring letter case, every contributed record takes its title, year,
catalog id and type from the entry, job `"Director"` matches filter
`"director"`, and the filter `"director"` over entries none of whose job folds
to it gives the empty output. -/
theorem filterByRole_crew_case_insensitive (orbit : Char → Char → Bool)
    (crew : GoMap (List mediaItem)) (role : String) (all : Bool) :
    filterByRole orbit [] crew role false false all =
      crew.flatMap (fun p => p.2.flatMap (fun c =>
        if role = "" ∨ EqualFold orbit c.Job role = true then
          carried (c.Job ++ " (" ++ p.1 ++ ")") c
        else [])) ∧
    (∀ (d : String) (c : mediaItem), (c.Movie.isSome = true ∨ c.Show.isSome = true) →
      (filterByRole orbit [] [(d, [c])] role false false all ≠ [] ↔
        (role = "" ∨ EqualFold orbit c.Job role = true))) ∧
    (∀ (label : String) (c : mediaItem), ∀ r ∈ carried label c,
      r.Role = label ∧
      ((r.Type_ = "movie" ∧ c.Movie = some ⟨r.Title, r.Year, r.ID⟩) ∨
       (r.Type_ = "show" ∧ c.Show = some ⟨r.Title, r.Year, r.ID⟩))) ∧
    EqualFold orbit "Director" "director" = true ∧
    ((∀ p ∈ crew, ∀ c ∈ p.2, EqualFold orbit c.Job "director" = false) →
      filterByRole orbit [] crew "director" false false all = []) := by
  have key : ∀ (crew : GoMap (List mediaItem)) (role : String),
      filterByRole orbit [] crew role false false all =
      crew.flatMap (fun p => p.2.flatMap (fun c =>
        if role = "" ∨ EqualFold orbit c.Job role = true then
          carried (c.Job ++ " (" ++ p.1 ++ ")") c
        else [])) := by
    intro crew role
    rw [filterByRole_eq]
    simp only [List.flatMap_nil, List.nil_append]
    congr 1
    funext p
    congr 1
    funext c
    exact crewBody_unflagged orbit role p.1 c
  refine ⟨key crew role, ?_, fun label c r hr => mem_carried label c r hr, rfl, ?_⟩
  · intro d c hc
    rw [key]
    simp only [List.flatMap_cons, List.flatMap_nil, List.append_nil]
    by_cases h : role = "" ∨ EqualFold orbit c.Job role = true
    · rw [if_pos h]
      exact ⟨fun _ => h, fun _ => carried_ne_nil _ c hc⟩
    · rw [if_neg h]
      exact ⟨fun hne => absurd rfl hne, fun h' => absurd h' h⟩
  · intro hnone
    rw [key]
    simp only [List.flatMap_eq_nil_iff]
    intro p hp c hc
    rw [if_neg]
    rintro (h | h)
    · exact absurd h (by decide)
    · rw [hnone p hp c hc] at h
      exact absurd h (by decide)

/-- C5, witness: a movie directed matches the filter `"director"`; a show
written does not. -/
theorem filterByRole_crew_case_insensitive_witness :
    (filterByRole (fun _ _ => false) [] [("directing", [directedMovie])]
        "director" false false false ≠ [] ↔
      ("director" = "" ∨ EqualFold (fun _ _ => false) directedMovie.Job "director" = true)) ∧
    filterByRole (fun _ _ => false) [] [("writing", [writtenShow])] "director" false false
      false = [] :=
  ⟨(filterByRole_crew_case_insensitive (fun _ _ => false) [] "director" false).2.1
      "directing" directedMovie (Or.inl rfl),
   (filterByRole_crew_case_insensitive (fun _ _ => false) [("writing", [writtenShow])]
      "director" false).2.2.2.2 (by decide)⟩

/-- C6: for every filmography (any mix of cast and crew, movie and show
entries), every role string and every value of the other flags: with
movies-only set the output of `filterByRole` holds no record of type `"show"`,
and with tv-only set it holds no record of type `"movie"`. -/
theorem filterByRole_media_type_exclusive (orbit : Char → Char → Bool) (cast : List mediaItem)
    (crew : GoMap (List mediaItem)) (role : String) (moviesOnly tvOnly all : Bool) :
    (∀ r ∈ filterByRole orbit cast crew role true tvOnly all, r.Type_ ≠ "show") ∧
    (∀ r ∈ filterByRole orbit cast crew role moviesOnly true all, r.Type_ ≠ "movie") := by
  have key : ∀ (mo tv : Bool) (r : filtered), r ∈ filterByRole orbit cast crew role mo tv all →
      (r.Type_ = "movie" ∧ tv = false) ∨ (r.Type_ = "show" ∧ mo = false) := by
    intro mo tv r hr
    rw [filterByRole_eq, List.mem_append, List.mem_flatMap, List.mem_flatMap] at hr
    rcases hr with ⟨c, -, hc⟩ | ⟨p, -, hp⟩
    · exact mem_entryBody_type _ _ _ _ _ _ hc
    · rw [List.mem_flatMap] at hp
      obtain ⟨c, -, hc⟩ := hp
      exact mem_entryBody_type _ _ _ _ _ _ hc
  refine ⟨?_, ?_⟩
  · intro r hr hshow
    rcases key _ _ r hr with ⟨h, -⟩ | ⟨-, h⟩
    · rw [hshow] at h; exact absurd h (by decide)
    · exact absurd h (by decide)
  · intro r hr hmovie
    rcases key _ _ r hr with ⟨-, h⟩ | ⟨h, -⟩
    · exact absurd h (by decide)
    · rw [hmovie] at h; exact absurd h (by decide)

/-- C6, witness: with movies-only set, the record a double entry yields is not a
show. -/
theorem filterByRole_media_type_exclusive_witness : movieRecord.Type_ ≠ "show" :=
  (filterByRole_media_type_exclusive (fun _ _ => false) [doubleEntry]
    [("writing", [writtenShow])] "" false false false).1 movieRecord (by decide)

theorem rangeOrder_of_length_le_one (m visit : GoMap (List mediaItem))
    (h : RangeOrder m visit) (hlen : m.length ≤ 1) : visit = m := by
  unfold RangeOrder at h
  match m, hlen with
  | [], _ => exact List.Perm.eq_nil h
  | [p], _ => exact List.perm_singleton.1 h

/-- C7, as amended: for every filmography, role string and flags, the output of
`filterByRole` is the records derived from the cast entries, in input order,
followed by the records derived from the crew entries, department by
department in the order in which `range` visits the crew map (an order Go
leaves unspecified) and in input order inside a department, so no crew record
precedes a cast record; when the crew map has at most one department every
visiting order gives the same output. The witness of the claim holds: one cast
movie entry with character `"Lead"` and one crew show entry with job `"Writer"`
in department `"writing"`, empty filter and default flags, give exactly the
movie record with role `"cast: Lead"` followed by the show record with role
`"Writer (writing)"`. -/
theorem filterByRole_cast_then_crew (orbit : Char → Char → Bool) (cast : List mediaItem)
    (crew : GoMap (List mediaItem)) (role : String) (moviesOnly tvOnly all : Bool) :
    filterByRole orbit cast crew role moviesOnly tvOnly all =
      cast.flatMap (fun c => filterByRole orbit [c] [] role moviesOnly tvOnly all) ++
      crew.flatMap (fun p => p.2.flatMap (fun c =>
        filterByRole orbit [] [(p.1, [c])] role moviesOnly tvOnly all)) ∧
    (∀ m visit : GoMap (List mediaItem), RangeOrder m crew → RangeOrder m visit →
      m.length ≤ 1 →
      filterByRole orbit cast visit role moviesOnly tvOnly all =
        filterByRole orbit cast crew role moviesOnly tvOnly all) ∧
    (∀ (m s : Media) (job character : String),
      filterByRole orbit [⟨some m, none, "Lead", job⟩]
          [("writing", [⟨none, some s, character, "Writer"⟩])] "" false false true =
        [⟨m.Title, m.Year, m.Trakt, "movie", "cast: Lead"⟩,
         ⟨s.Title, s.Year, s.Trakt, "show", "Writer (writing)"⟩]) := by
  refine ⟨?_, ?_, fun m s job character => rfl⟩
  · rw [filterByRole_eq]
    rfl
  · intro m visit h1 h2 hlen
    rw [rangeOrder_of_length_le_one m visit h2 hlen, rangeOrder_of_length_le_one m crew h1 hlen]

/-- C7, witness: a crew map with the single department `"writing"`. -/
theorem filterByRole_cast_then_crew_witness :
    filterByRole (fun _ _ => false) [doubleEntry] [("writing", [writtenShow])] "" false false
        true =
      [⟨"Alpha", 2001, 11, "movie", "cast: Lead"⟩, ⟨"Beta", 2002, 22, "show", "cast: Lead"⟩,
       ⟨"Beta", 2002, 22, "show", "Writer (writing)"⟩] :=
  ((filterByRole_cast_then_crew (fun _ _ => false) [doubleEntry] [("writing", [writtenShow])] ""
    false false true).2.1 [("writing", [writtenShow])] [("writing", [writtenShow])]
    (List.Perm.refl _) (List.Perm.refl _) (by decide)).trans rfl

/-- C7, counterexample to the claim as stated: a crew map with the departments
`"directing"` and `"writing"`, in that order in the input, may be visited
`"writing"` first; the output then lists the writing record before the
directing record, which is not the input order and differs from the output of
the run that visits `"directing"` first. -/
theorem filterByRole_department_order_counterexample :
    RangeOrder [("directing", [directedMovie]), ("writing", [writtenShow])]
      [("writing", [writtenShow]), ("directing", [directedMovie])] ∧
    filterByRole (fun _ _ => false) []
        [("writing", [writtenShow]), ("directing", [directedMovie])] "" false false true =
      [⟨"Beta", 2002, 22, "show", "Writer (writing)"⟩,
       ⟨"Alpha", 2001, 11, "movie", "Director (directing)"⟩] ∧
    filterByRole (fun _ _ => false) []
        [("directing", [directedMovie]), ("writing", [writtenShow])] "" false false true =
      [⟨"Alpha", 2001, 11, "movie", "Director (directing)"⟩,
       ⟨"Beta", 2002, 22, "show", "Writer (writing)"⟩] ∧
    filterByRole (fun _ _ => false) []
        [("writing", [writtenShow]), ("directing", [directedMovie])] "" false false true ≠
      filterByRole (fun _ _ => false) []
        [("directing", [directedMovie]), ("writing", [writtenShow])] "" false false true :=
  ⟨List.Perm.swap _ _ _, rfl, rfl, by decide⟩

/-- C10, at the failing input: one cast entry that carries both a movie and a
show, empty filter. Unflagged, the output is the movie record and the show
record; with only tv-only set the output is empty, although the show records of
the unflagged output are the one show record. With only movies-only set the
output is the movie record, as the claim says. -/
theorem filterByRole_tvOnly_drops_show_of_double_entry :
    filterByRole (fun _ _ => false) [doubleEntry] [] "" false false false =
      [⟨"Alpha", 2001, 11, "movie", "cast: Lead"⟩, ⟨"Beta", 2002, 22, "show", "cast: Lead"⟩] ∧
    filterByRole (fun _ _ => false) [doubleEntry] [] "" false true false = [] ∧
    (filterByRole (fun _ _ => false) [doubleEntry] [] "" false false false).filter
        (fun r => decide (r.Type_ = "show")) =
      [⟨"Beta", 2002, 22, "show", "cast: Lead"⟩] ∧
    filterByRole (fun _ _ => false) [doubleEntry] [] "" true false false =
      [⟨"Alpha", 2001, 11, "movie", "cast: Lead"⟩] :=
  ⟨rfl, rfl, by decide, rfl⟩

theorem entryBody_moviesOnly (wanted : Bool) (label : String) (c : mediaItem) :
    entryBody true false wanted label [] c =
      (entryBody false false wanted label [] c).filter (fun r => decide (r.Type_ = "movie")) := by
  unfold entryBody showPart mkFiltered
  cases c.Movie <;> cases c.Show <;> cases wanted <;> simp

theorem entryBody_tvOnly (wanted : Bool) (label : String) (c : mediaItem)
    (h : c.Movie = none ∨ c.Show = none) :
    entryBody false true wanted label [] c =
      (entryBody false false wanted label [] c).filter (fun r => decide (r.Type_ = "show")) := by
  unfold entryBody showPart mkFiltered
  cases hm : c.Movie <;> cases hs : c.Show <;> cases wanted <;> simp [hm, hs] at h ⊢

/-- With only movies-only set, for every filmography, the output is the movie
records of the unflagged output, in the same order. -/
theorem filterByRole_moviesOnly_eq_filter (orbit : Char → Char → Bool) (cast : List mediaItem)
    (crew : GoMap (List mediaItem)) (role : String) (all all' : Bool) :
    filterByRole orbit cast crew role true false all =
      (filterByRole orbit cast crew role false false all').filter
        (fun r => decide (r.Type_ = "movie")) := by
  rw [filterByRole_eq, filterByRole_eq, List.filter_append, List.filter_flatMap,
    List.filter_flatMap]
  congr 1
  · congr 1
    funext c
    exact entryBody_moviesOnly _ _ c
  · congr 1
    funext p
    rw [List.filter_flatMap]
    congr 1
    funext c
    exact entryBody_moviesOnly _ _ c

/-- With only tv-only set, when no entry carries both a movie and a show, the
output is the show records of the unflagged output, in the same order. -/
theorem filterByRole_tvOnly_eq_filter (orbit : Char → Char → Bool) (cast : List mediaItem)
    (crew : GoMap (List mediaItem)) (role : String) (all all' : Bool)
    (hcast : ∀ c ∈ cast, c.Movie = none ∨ c.Show = none)
    (hcrew : ∀ p ∈ crew, ∀ c ∈ p.2, c.Movie = none ∨ c.Show = none) :
    filterByRole orbit cast crew role false true all =
      (filterByRole orbit cast crew role false false all').filter
        (fun r => decide (r.Type_ = "show")) := by
  rw [filterByRole_eq, filterByRole_eq, List.filter_append, List.filter_flatMap,
    List.filter_flatMap]
  congr 1
  · apply List.flatMap_congr
    intro c hc
    exact entryBody_tvOnly _ _ c (hcast c hc)
  · apply List.flatMap_congr
    intro p hp
    rw [List.filter_flatMap]
    apply List.flatMap_congr
    intro c hc
    exact entryBody_tvOnly _ _ c (hcrew p hp c hc)

/-! ## Batched publishing -/

/-- One iteration of the loop: the slice taken at index `i`, then the rest. -/
theorem addMediaToListFrom_step (items : List filtered) (i : Nat) (h : i < items.length) :
    addMediaToListFrom items i =
      { items := (items.drop i).take (min (i + 10) items.length - i)
        moviesPayload := (splitPayload ((items.drop i).take (min (i + 10) items.length - i))).1
        showsPayload := (splitPayload ((items.drop i).take (min (i + 10) items.length - i))).2 } ::
      addMediaToListFrom items (i + 10) := by
  rw [addMediaToListFrom, if_pos h]
  have hstop : (if items.length < i + 10 then items.length else i + 10) =
      min (i + 10) items.length := by
    split <;> omega
  simp only [hstop]

theorem addMediaToListFrom_done (items : List filtered) (i : Nat) (h : ¬ i < items.length) :
    addMediaToListFrom items i = [] := by
  rw [addMediaToListFrom, if_neg h]

theorem addMediaToListFrom_length (items : List filtered) (i : Nat) :
    (addMediaToListFrom items i).length = (items.length - i + 9) / 10 := by
  induction i using addMediaToListFrom.induct items with
  | case1 i h ih =>
    rw [addMediaToListFrom_step items i h, List.length_cons, ih]
    omega
  | case2 i h =>
    rw [addMediaToListFrom_done items i h, List.length_nil]
    omega

theorem addMediaToListFrom_getElem (items : List filtered) (i k : Nat) :
    ((addMediaToListFrom items i).map Batch.items)[k]? =
      if i + 10 * k < items.length then
        some ((items.drop (i + 10 * k)).take (min (i + 10 * k + 10) items.length - (i + 10 * k)))
      else none := by
  induction i using addMediaToListFrom.induct items generalizing k with
  | case1 i h ih =>
    rw [addMediaToListFrom_step items i h, List.map_cons]
    cases k with
    | zero => simp [h]
    | succ k =>
      rw [List.getElem?_cons_succ, ih k]
      have e : i + 10 + 10 * k = i + 10 * (k + 1) := by omega
      rw [e]
  | case2 i h =>
    rw [addMediaToListFrom_done items i h]
    have : ¬ i + 10 * k < items.length := by omega
    simp [this]

theorem addMediaToListFrom_flatten (items : List filtered) (i : Nat) :
    ((addMediaToListFrom items i).map Batch.items).flatten = items.drop i := by
  induction i using addMediaToListFrom.induct items with
  | case1 i h ih =>
    rw [addMediaToListFrom_step items i h, List.map_cons, List.flatten_cons, ih]
    by_cases hle : i + 10 ≤ items.length
    · have e : min (i + 10) items.length - i = 10 := by omega
      rw [e, ← List.drop_drop, List.take_append_drop]
    · have e : min (i + 10) items.length - i = items.length - i := by omega
      rw [e, List.drop_eq_nil_of_le (by omega : items.length ≤ i + 10), List.append_nil]
      apply List.take_of_length_le
      simp
  | case2 i h =>
    rw [addMediaToListFrom_done items i h]
    simp only [List.map_nil, List.flatten_nil]
    exact (List.drop_eq_nil_of_le (by omega)).symm

theorem splitPayload_foldl (slice : List filtered) (acc : List Int × List Int) :
    slice.foldl
      (fun acc it =>
        if it.Type_ = "movie" then (acc.1 ++ [it.ID], acc.2) else (acc.1, acc.2 ++ [it.ID]))
      acc =
    (acc.1 ++ (slice.filter (fun it => decide (it.Type_ = "movie"))).map filtered.ID,
     acc.2 ++ (slice.filter (fun it => !decide (it.Type_ = "movie"))).map filtered.ID) := by
  induction slice generalizing acc with
  | nil => simp
  | cons it slice ih =>
    rw [List.foldl_cons, ih]
    by_cases h : it.Type_ = "movie" <;> simp [h]

theorem splitPayload_eq (slice : List filtered) :
    splitPayload slice =
      ((slice.filter (fun it => decide (it.Type_ = "movie"))).map filtered.ID,
       (slice.filter (fun it => !decide (it.Type_ = "movie"))).map filtered.ID) := by
  unfold splitPayload
  rw [splitPayload_foldl]
  simp

theorem addMediaToListFrom_payload (items : List filtered) (i : Nat) :
    ∀ b ∈ addMediaToListFrom items i,
      b.moviesPayload = (splitPayload b.items).1 ∧ b.showsPayload = (splitPayload b.items).2 := by
  induction i using addMediaToListFrom.induct items with
  | case1 i h ih =>
    rw [addMediaToListFrom_step items i h]
    intro b hb
    rcases List.mem_cons.1 hb with rfl | hb
    · exact ⟨rfl, rfl⟩
    · exact ih b hb
  | case2 i h =>
    rw [addMediaToListFrom_done items i h]
    intro b hb
    exact absurd hb (List.not_mem_nil b)

theorem addMediaToList_getElem (items : List filtered) (k : Nat) :
    ((addMediaToList items).map Batch.items)[k]? =
      if 10 * k < items.length then
        some ((items.drop (10 * k)).take (min (10 * k + 10) items.length - 10 * k))
      else none := by
  have := addMediaToListFrom_getElem items 0 k
  simpa [addMediaToList] using this

theorem addMediaToList_mem_size (items : List filtered) (b : Batch)
    (hb : b ∈ addMediaToList items) : 0 < b.items.length ∧ b.items.length ≤ 10 := by
  obtain ⟨k, hk⟩ := List.mem_iff_getElem?.1 hb
  have h := addMediaToList_getElem items k
  rw [List.getElem?_map, hk, Option.map_some'] at h
  by_cases hlt : 10 * k < items.length
  · rw [if_pos hlt] at h
    have e := Option.some.inj h
    rw [e, List.length_take, List.length_drop]
    omega
  · rw [if_neg hlt] at h
    exact Option.noConfusion h

theorem length_filter_add_filter_not {α : Type} (p : α → Bool) (l : List α) :
    (l.filter p).length + (l.filter (fun a => !p a)).length = l.length := by
  induction l with
  | nil => rfl
  | cons a l ih =>
    cases h : p a <;> simp [List.filter_cons, h] <;> omega

theorem uploads_length (b : Batch) (h : 0 < b.moviesPayload.length + b.showsPayload.length) :
    2 ≤ b.uploads.length ∧ b.uploads.length ≤ 3 := by
  unfold Batch.uploads
  by_cases hm : 0 < b.moviesPayload.length <;> by_cases hs : 0 < b.showsPayload.length
  · simp [hm, hs]
  · simp [hm, hs]
  · simp [hm, hs]
  · omega

/-- C8: for every list of `n` filtered items, `addMediaToList` terminates after
exactly `ceil(n/10)` batches; batch `k` (from 0) is the items at positions `10k`
up to but not including `min(10k+10, n)`; every batch is non-empty and has at
most 10 items, every batch but the last has exactly 10, and the batches
concatenated in order are the input list. The ids of a batch are posted as its
movies followed by everything else (one or two requests, then the pause). In
particular 23 items give batches of sizes 10, 10 and 3, and the empty list
gives none. -/
theorem addMediaToList_batches (items : List filtered) :
    (addMediaToList items).length = (items.length + 9) / 10 ∧
    (∀ k, k < (items.length + 9) / 10 →
      ((addMediaToList items).map Batch.items)[k]? =
        some ((items.drop (10 * k)).take (min (10 * k + 10) items.length - 10 * k))) ∧
    (∀ b ∈ addMediaToList items, 0 < b.items.length ∧ b.items.length ≤ 10) ∧
    (∀ k, k + 1 < (addMediaToList items).length →
      ((addMediaToList items).map (fun b => b.items.length))[k]? = some 10) ∧
    ((addMediaToList items).map Batch.items).flatten = items ∧
    (∀ b ∈ addMediaToList items,
      b.moviesPayload = (b.items.filter (fun it => decide (it.Type_ = "movie"))).map filtered.ID ∧
      b.showsPayload = (b.items.filter (fun it => !decide (it.Type_ = "movie"))).map filtered.ID ∧
      b.moviesPayload.length + b.showsPayload.length = b.items.length ∧
      2 ≤ b.uploads.length ∧ b.uploads.length ≤ 3) ∧
    (items.length = 23 →
      (addMediaToList items).map (fun b => b.items.length) = [10, 10, 3]) ∧
    addMediaToList [] = [] := by
  have hlen : (addMediaToList items).length = (items.length + 9) / 10 := by
    have := addMediaToListFrom_length items 0
    simpa [addMediaToList] using this
  refine ⟨hlen, ?_, addMediaToList_mem_size items, ?_, ?_, ?_, ?_, ?_⟩
  · intro k hk
    rw [addMediaToList_getElem, if_pos (by omega)]
  · intro k hk
    rw [hlen] at hk
    have h := addMediaToList_getElem items k
    rw [if_pos (by omega)] at h
    have hmap : (addMediaToList items).map (fun b => b.items.length) =
        ((addMediaToList items).map Batch.items).map List.length := by
      rw [List.map_map]; rfl
    rw [hmap, List.getElem?_map, h, Option.map_some', List.length_take, List.length_drop]
    congr 1
    omega
  · have := addMediaToListFrom_flatten items 0
    simpa [addMediaToList] using this
  · intro b hb
    have h := addMediaToListFrom_payload items 0 b hb
    rw [splitPayload_eq] at h
    have hsum : b.moviesPayload.length + b.showsPayload.length = b.items.length := by
      rw [h.1, h.2, List.length_map, List.length_map]
      exact length_filter_add_filter_not _ _
    have hpos := (addMediaToList_mem_size items b hb).1
    have hup := uploads_length b (by omega)
    exact ⟨h.1, h.2, hsum, hup.1, hup.2⟩
  · intro h23
    rw [addMediaToList, addMediaToListFrom_step items 0 (by omega),
      addMediaToListFrom_step items (0 + 10) (by omega),
      addMediaToListFrom_step items (0 + 10 + 10) (by omega),
      addMediaToListFrom_done items (0 + 10 + 10 + 10) (by omega)]
    simp [h23]
  · exact addMediaToListFrom_done [] 0 (by simp)

/-- C8, witness: 23 copies of one record are processed in batches of 10, 10 and 3. -/
theorem addMediaToList_batches_witness :
    (addMediaToList (List.replicate 23 movieRecord)).map (fun b => b.items.length) =
      [10, 10, 3] :=
  (addMediaToList_batches (List.replicate 23 movieRecord)).2.2.2.2.2.2.1 (by decide)

end TraktFilter
